import Mathlib

/-!
Verification of `convert_to_webp.py` (Rishab2000/image-optimizer).

Shallow embedding. File names are modelled as `List Char`. The external
tools (exiftool, sips, cwebp) are modelled by an environment `Env` of
boolean oracles saying which invocations exit with status 0; an invocation
that succeeds creates its output file, a failing one creates nothing.
The disk is modelled as the list of file names present in the output
directory `webp_output` (the only directory the script writes to).
Every external invocation is recorded in an event trace.
-/

namespace ImageOptimizer

/-- The fixed extension list, line 12 of the source:
`formats = [".jpg", ".jpeg", ".png", ".heic", ".HEIC", ".JPG", ".JPEG", ".PNG"]`. -/
def formats : List (List Char) :=
  [".jpg".toList, ".jpeg".toList, ".png".toList, ".heic".toList,
   ".HEIC".toList, ".JPG".toList, ".JPEG".toList, ".PNG".toList]

/-- `Path(input_dir).glob("*" ++ fmt)` over a directory listing `files`:
`*` matches any (possibly empty) run of characters (pathlib's glob, unlike the
`glob` module, does not special-case leading dots), so a name matches exactly
when `fmt` is a literal suffix of it. -/
def globFmt (files : List (List Char)) (fmt : List Char) : List (List Char) :=
  files.filter (fun f => fmt.isSuffixOf f)

/-- Lines 105-107: `image_files = []; for fmt in formats: image_files.extend(glob)`. -/
def discover (files : List (List Char)) : List (List Char) :=
  formats.foldl (fun acc fmt => acc ++ globFmt files fmt) []

/-- A name matches the extension list (literal, case-sensitive suffix test). -/
def matchesFormat (name : List Char) : Bool :=
  formats.any (fun fmt => fmt.isSuffixOf name)

/-- Index of the last `'.'` in a name, scanning left to right and keeping the
latest hit (Python `str.rfind('.')`, as `Option`). -/
def rfindDotAux : List Char → Nat → Option Nat → Option Nat
  | [], _, acc => acc
  | c :: cs, i, acc => rfindDotAux cs (i + 1) (if c = '.' then some i else acc)

/-- Python `name.rfind('.')` as an `Option Nat`. -/
def rfindDot (name : List Char) : Option Nat :=
  rfindDotAux name 0 none

/-- `pathlib.PurePath.suffix` on a bare file name: the part from the final dot,
empty when the dot is leading (hidden file) or trailing. -/
def pathSuffix (name : List Char) : List Char :=
  match rfindDot name with
  | some i => if 0 < i ∧ i < name.length - 1 then name.drop i else []
  | none => []

/-- `pathlib.PurePath.stem` on a bare file name. -/
def pathStem (name : List Char) : List Char :=
  match rfindDot name with
  | some i => if 0 < i ∧ i < name.length - 1 then name.take i else name
  | none => name

/-- Python `str.lower` restricted to ASCII, which is all the script compares. -/
def lowerStr (s : List Char) : List Char :=
  s.map Char.toLower

/-- Decimal digit to character. -/
def digitChar (d : Nat) : Char :=
  match d with
  | 0 => '0' | 1 => '1' | 2 => '2' | 3 => '3' | 4 => '4'
  | 5 => '5' | 6 => '6' | 7 => '7' | 8 => '8' | _ => '9'

/-- Little-endian decimal digits of `n`; `fuel ≥ n` suffices. -/
def digitsAux : Nat → Nat → List Nat
  | 0, _ => []
  | fuel + 1, n => if n = 0 then [] else n % 10 :: digitsAux fuel (n / 10)

/-- Python `str(n)` for a natural number: decimal, no leading zeros. -/
def natToStr (n : Nat) : List Char :=
  if n = 0 then ['0'] else ((digitsAux n n).map digitChar).reverse

/-- Value of a little-endian digit list (used to invert `digitsAux`). -/
def ofDigitsRev : List Nat → Nat
  | [] => 0
  | d :: ds => d + 10 * ofDigitsRev ds

/-- The candidate names tried by `get_unique_output_path` (lines 84 and 87):
`f"{stem}.webp"` for `k = 0`, `f"{stem}_{k}.webp"` for `k ≥ 1`. -/
def outName (stem : List Char) (k : Nat) : List Char :=
  if k = 0 then stem ++ ".webp".toList
  else stem ++ "_".toList ++ natToStr k ++ ".webp".toList

/-- The `while output_path.exists()` loop of lines 86-88, with explicit fuel:
at position `k`, if the current candidate name exists on `disk`, move on to
`k + 1`. -/
def findFree (disk : List (List Char)) (stem : List Char) : Nat → Nat → List Char
  | 0, k => outName stem k
  | fuel + 1, k => if outName stem k ∈ disk then findFree disk stem fuel (k + 1) else outName stem k

/-- Lines 81-90, `get_unique_output_path(base_path, output_dir)`: the stem is
`base_path.stem`, `disk` is the set of names currently in the output directory.
`disk.length + 1` rounds of the loop always reach a free name. -/
def get_unique_output_path (disk : List (List Char)) (stem : List Char) : List Char :=
  findFree disk stem (disk.length + 1) 0

/-- Oracles for the external tools: which invocations exit with status 0.
`exiftoolAvailable` is fixed for the whole run (the tool is not installed or
removed mid-run), so every `check_exiftool()` call returns it. -/
structure Env where
  exiftoolAvailable : Bool
  sipsOk : List Char → Bool
  cwebpOk : List Char → Bool
  copyAllOk : List Char → List Char → Bool
  copyDatesOk : List Char → List Char → Bool

/-- One external-tool invocation, in program order. -/
inductive Event where
  | probe (ok : Bool)
  | sips (src dst : List Char)
  | cwebp (src dst : List Char)
  | copyMeta (src dst : List Char)
  | copyDates (src dst : List Char)
  | unlink (p : List Char)
deriving DecidableEq

/-- Outcome of the body of the `for img_path in image_files` loop for one
candidate: events emitted, resulting output-directory contents, the reserved
output path, and whether control reached `successful_conversions += 1`
(`convOk`) resp. `metadata_preserved += 1` (`metaOk`). -/
structure JobResult where
  events : List Event
  disk : List (List Char)
  assignedPath : List Char
  convOk : Bool
  metaOk : Bool

/-- Interpreter state of the main loop: output-directory contents, the two
counters (lines 112-113), the event trace, and the list of
(reserved output path, conversion succeeded) pairs, one per processed job. -/
structure RunState where
  disk : List (List Char)
  succ : Nat
  meta : Nat
  events : List Event
  assigned : List (List Char × Bool)

/-- `p` is created on disk; a no-op when it is already there (tools overwrite). -/
def addFile (disk : List (List Char)) (p : List Char) : List (List Char) :=
  if p ∈ disk then disk else p :: disk

/-- Lines 30-63, `copy_metadata(source_path, dest_path)`: the all-tags pass,
then (only if it exited 0, since `check=True` raises) the date-tags pass;
returns whether both exited 0. -/
def copy_metadata_run (env : Env) (src dst : List Char) : List Event × Bool :=
  if env.copyAllOk src dst then
    if env.copyDatesOk src dst then ([Event.copyMeta src dst, Event.copyDates src dst], true)
    else ([Event.copyMeta src dst, Event.copyDates src dst], false)
  else ([Event.copyMeta src dst], false)

/-- Lines 65-79, `convert_heic_to_jpeg(heic_path, jpeg_path)`: run sips; on
success re-run `check_exiftool()` (line 72) and, if it reports the tool,
run `copy_metadata` onto the intermediate file, ignoring its result; the
boolean is whether sips exited 0. -/
def convert_heic_to_jpeg (env : Env) (heic temp : List Char) : Bool × List Event :=
  if env.sipsOk heic then
    (true,
      [Event.sips heic temp, Event.probe env.exiftoolAvailable] ++
        (if env.exiftoolAvailable then (copy_metadata_run env heic temp).1 else []))
  else (false, [Event.sips heic temp])

/-- Line 122: the intermediate path `f"{img_path.stem}_temp.jpg"`. -/
def tempName (img : List Char) : List Char :=
  pathStem img ++ "_temp.jpg".toList

/-- Lines 141-149: the tail of the loop body after a successful conversion.
If `has_exiftool`, run `copy_metadata(img, out)` and increment
`metadata_preserved` exactly when it returned True; then
`successful_conversions += 1` unconditionally. -/
def finishJob (env : Env) (hasExif : Bool) (img out : List Char)
    (ev : List Event) (disk : List (List Char)) : JobResult :=
  if hasExif then
    let mr := copy_metadata_run env img out
    { events := ev ++ mr.1, disk := disk, assignedPath := out, convOk := true, metaOk := mr.2 }
  else
    { events := ev, disk := disk, assignedPath := out, convOk := true, metaOk := false }

/-- Lines 115-160: the body of the main loop for one candidate `img`.
Routing (line 120) is on `img_path.suffix.lower() == '.heic'`. On the HEIC
path, a sips failure raises before cwebp is reached; a cwebp failure
(`check=True` raises `CalledProcessError`) skips the `temp_jpg.unlink()` of
line 134, so the intermediate file stays on disk. All exceptions are caught
by the `except` clauses, arriving here as a `JobResult` with
`convOk = false`. -/
def runJob (env : Env) (hasExif : Bool) (disk : List (List Char)) (img : List Char) : JobResult :=
  let out := get_unique_output_path disk (pathStem img)
  if lowerStr (pathSuffix img) = ".heic".toList then
    let temp := tempName img
    let heic := convert_heic_to_jpeg env img temp
    if heic.1 then
      let disk1 := addFile disk temp
      let ev1 := heic.2 ++ [Event.cwebp temp out]
      if env.cwebpOk temp then
        finishJob env hasExif img out (ev1 ++ [Event.unlink temp]) ((addFile disk1 out).erase temp)
      else
        { events := ev1, disk := disk1, assignedPath := out, convOk := false, metaOk := false }
    else
      { events := heic.2, disk := disk, assignedPath := out, convOk := false, metaOk := false }
  else
    let ev1 := [Event.cwebp img out]
    if env.cwebpOk img then
      finishJob env hasExif img out ev1 (addFile disk out)
    else
      { events := ev1, disk := disk, assignedPath := out, convOk := false, metaOk := false }

/-- One iteration of the main loop: run the body and fold its outcome into
the interpreter state (the counter increments are the code the body reached). -/
def processJob (env : Env) (hasExif : Bool) (st : RunState) (img : List Char) : RunState :=
  let r := runJob env hasExif st.disk img
  { disk := r.disk,
    succ := st.succ + (if r.convOk then 1 else 0),
    meta := st.meta + (if r.metaOk then 1 else 0),
    events := st.events ++ r.events,
    assigned := st.assigned ++ [(r.assignedPath, r.convOk)] }

/-- The `for img_path in image_files` loop. -/
def runLoop (env : Env) (hasExif : Bool) : List (List Char) → RunState → RunState
  | [], st => st
  | img :: rest, st => runLoop env hasExif rest (processJob env hasExif st img)

/-- State after lines 93-113: output directory holds `disk0`, the startup
`check_exiftool()` of line 96 has run, counters are zero. -/
def initState (env : Env) (disk0 : List (List Char)) : RunState :=
  { disk := disk0, succ := 0, meta := 0,
    events := [Event.probe env.exiftoolAvailable], assigned := [] }

/-- The whole script on a directory listing `files`, with `disk0` the prior
contents of `webp_output`: probe once, discover, then process each candidate. -/
def runMain (env : Env) (files : List (List Char)) (disk0 : List (List Char)) : RunState :=
  runLoop env env.exiftoolAvailable (discover files) (initState env disk0)

/-- Number of `check_exiftool` invocations recorded in a trace. -/
def probeCount (evs : List Event) : Nat :=
  evs.countP (fun e => match e with | Event.probe _ => true | _ => false)

/-- Number of metadata-copy tool invocations (either pass) in a trace. -/
def copyCount (evs : List Event) : Nat :=
  evs.countP (fun e =>
    match e with
    | Event.copyMeta _ _ => true
    | Event.copyDates _ _ => true
    | _ => false)

/-- The reserved output paths of the jobs whose conversion succeeded. -/
def successPaths (a : List (List Char × Bool)) : List (List Char) :=
  (a.filter (fun p => p.2)).map Prod.fst

/-- A candidate that is routed to the HEIC path and whose sips decode exits 0. -/
def heicDecoded (env : Env) (img : List Char) : Bool :=
  decide (lowerStr (pathSuffix img) = ".heic".toList) && env.sipsOk img

/-- Invariant carried by the main loop for the uniqueness argument: every
reserved path of a job whose conversion succeeded is on disk, those paths are
pairwise distinct, and each of them ends in `'p'` (they end in `.webp`, so
they are never the `..._temp.jpg` name that the HEIC path deletes). -/
def InvC2 (st : RunState) : Prop :=
  (∀ p ∈ successPaths st.assigned, p ∈ st.disk)
  ∧ (successPaths st.assigned).Nodup
  ∧ (∀ p ∈ successPaths st.assigned, p.getLast? = some 'p')

/-- Environment where only sips succeeds: exiftool absent, cwebp always fails. -/
def envSipsOnly : Env :=
  { exiftoolAvailable := false,
    sipsOk := fun _ => true,
    cwebpOk := fun _ => false,
    copyAllOk := fun _ _ => false,
    copyDatesOk := fun _ _ => false }

/-- Environment where every tool invocation succeeds. -/
def envAllOk : Env :=
  { exiftoolAvailable := true,
    sipsOk := fun _ => true,
    cwebpOk := fun _ => true,
    copyAllOk := fun _ _ => true,
    copyDatesOk := fun _ _ => true }

/-- Environment where conversion succeeds but the all-tags metadata pass fails. -/
def envCopyFail : Env :=
  { exiftoolAvailable := true,
    sipsOk := fun _ => true,
    cwebpOk := fun _ => true,
    copyAllOk := fun _ _ => false,
    copyDatesOk := fun _ _ => false }

/-! ### Helper lemmas: decimal rendering -/

theorem digitsAux_spec : ∀ fuel n, n ≤ fuel → ofDigitsRev (digitsAux fuel n) = n := by
  intro fuel
  induction fuel with
  | zero => intro n hn; interval_cases n; rfl
  | succ fuel ih =>
    intro n hn
    by_cases h0 : n = 0
    · subst h0; simp [digitsAux, ofDigitsRev]
    · have hpos : 0 < n := Nat.pos_of_ne_zero h0
      have hdiv : n / 10 < n := Nat.div_lt_self hpos (by norm_num)
      have hle : n / 10 ≤ fuel := by omega
      simp only [digitsAux, h0, if_false, ofDigitsRev]
      rw [ih _ hle]
      exact Nat.mod_add_div n 10

theorem digitsAux_lt : ∀ fuel n d, d ∈ digitsAux fuel n → d < 10 := by
  intro fuel
  induction fuel with
  | zero => intro n d hd; simp [digitsAux] at hd
  | succ fuel ih =>
    intro n d hd
    by_cases h0 : n = 0
    · subst h0; simp [digitsAux] at hd
    · simp only [digitsAux, h0, if_false, List.mem_cons] at hd
      rcases hd with h | h
      · subst h; exact Nat.mod_lt n (by norm_num)
      · exact ih _ _ h

theorem digitChar_inj_lt : ∀ d, d < 10 → ∀ e, e < 10 → digitChar d = digitChar e → d = e := by
  decide

theorem map_digitChar_inj : ∀ l₁ l₂ : List Nat, (∀ d ∈ l₁, d < 10) → (∀ d ∈ l₂, d < 10) →
    l₁.map digitChar = l₂.map digitChar → l₁ = l₂ := by
  intro l₁
  induction l₁ with
  | nil => intro l₂ _ _ h; cases l₂ <;> simp_all
  | cons a l ih =>
    intro l₂ h1 h2 h
    cases l₂ with
    | nil => simp at h
    | cons b l' =>
      simp only [List.map_cons, List.cons.injEq] at h
      have ha : a = b :=
        digitChar_inj_lt a (h1 a (by simp)) b (h2 b (by simp)) h.1
      have hl : l = l' := ih l' (fun d hd => h1 d (by simp [hd])) (fun d hd => h2 d (by simp [hd])) h.2
      rw [ha, hl]

theorem natToStr_inj : ∀ m n : Nat, natToStr m = natToStr n → m = n := by
  have key : ∀ n : Nat, n ≠ 0 → natToStr n ≠ ['0'] := by
    intro n hn hcontra
    have h1 : ((digitsAux n n).map digitChar).reverse = ['0'] := by
      simpa [natToStr, hn] using hcontra
    have h2 : (digitsAux n n).map digitChar = ['0'] := by
      have := congrArg List.reverse h1
      simpa using this
    have h3 : digitsAux n n = [0] := by
      cases hd : digitsAux n n with
      | nil => rw [hd] at h2; simp at h2
      | cons d ds =>
        rw [hd] at h2
        cases ds with
        | nil =>
          simp only [List.map_cons, List.map_nil, List.cons.injEq, and_true] at h2
          have hdlt : d < 10 := digitsAux_lt n n d (by rw [hd]; simp)
          have : d = 0 := digitChar_inj_lt d hdlt 0 (by norm_num) h2
          rw [this]
        | cons e es => simp at h2
    have h4 : ofDigitsRev (digitsAux n n) = n := digitsAux_spec n n le_rfl
    rw [h3] at h4
    simp [ofDigitsRev] at h4
    exact hn h4.symm
  intro m n h
  by_cases hm : m = 0 <;> by_cases hn : n = 0
  · omega
  · exfalso; apply key n hn; rw [← h, hm]; rfl
  · exfalso; apply key m hm; rw [h, hn]; rfl
  · have h1 : ((digitsAux m m).map digitChar).reverse = ((digitsAux n n).map digitChar).reverse := by
      simpa [natToStr, hm, hn] using h
    have h2 : (digitsAux m m).map digitChar = (digitsAux n n).map digitChar :=
      List.reverse_inj.mp h1
    have h3 : digitsAux m m = digitsAux n n :=
      map_digitChar_inj _ _ (digitsAux_lt m m) (digitsAux_lt n n) h2
    have h4 := digitsAux_spec m m le_rfl
    rw [h3, digitsAux_spec n n le_rfl] at h4
    exact h4.symm

/-! ### Helper lemmas: output names -/

theorem outName_zero (stem : List Char) : outName stem 0 = stem ++ ".webp".toList := rfl

theorem outName_succ (stem : List Char) (k : Nat) :
    outName stem (k + 1) = stem ++ "_".toList ++ natToStr (k + 1) ++ ".webp".toList := rfl

theorem outName_inj (stem : List Char) : ∀ k j, outName stem k = outName stem j → k = j := by
  have aux : ∀ j, outName stem 0 ≠ outName stem (j + 1) := by
    intro j h
    rw [outName_zero, outName_succ] at h
    rw [List.append_assoc, List.append_assoc] at h
    have h2 := List.append_cancel_left h
    have h3 : ('.' :: "webp".toList : List Char) =
        '_' :: (natToStr (j + 1) ++ ".webp".toList) := h2
    injection h3 with h4 h5
    exact absurd h4 (by decide)
  intro k j h
  match k, j with
  | 0, 0 => rfl
  | 0, j + 1 => exact absurd h (aux j)
  | k + 1, 0 => exact absurd h.symm (aux k)
  | k + 1, j + 1 =>
    rw [outName_succ, outName_succ] at h
    have h2 := List.append_cancel_right h
    have h3 := List.append_cancel_left h2
    exact natToStr_inj _ _ h3

theorem exists_outName_free (disk : List (List Char)) (stem : List Char) :
    ∃ j, j ≤ disk.length ∧ outName stem j ∉ disk := by
  by_contra hcon
  push_neg at hcon
  have hmaps : ∀ a ∈ Finset.range (disk.length + 1), outName stem a ∈ disk.toFinset := by
    intro a ha
    rw [Finset.mem_range] at ha
    rw [List.mem_toFinset]
    exact hcon a (by omega)
  have hinj : Set.InjOn (outName stem) (Finset.range (disk.length + 1)) := by
    intro a _ b _ hab
    exact outName_inj stem a b hab
  have hcard := Finset.card_le_card_of_injOn (outName stem) hmaps hinj
  rw [Finset.card_range] at hcard
  have := List.toFinset_card_le disk
  omega

theorem findFree_not_mem (disk : List (List Char)) (stem : List Char) :
    ∀ fuel k, (∃ j, j ≤ fuel ∧ outName stem (k + j) ∉ disk) →
    findFree disk stem fuel k ∉ disk := by
  intro fuel
  induction fuel with
  | zero =>
    intro k ⟨j, hj, hfree⟩
    have : j = 0 := Nat.le_zero.mp hj
    subst this
    simpa [findFree] using hfree
  | succ fuel ih =>
    intro k ⟨j, hj, hfree⟩
    by_cases hk : outName stem k ∈ disk
    · have hj0 : j ≠ 0 := by rintro rfl; exact hfree hk
      obtain ⟨j', rfl⟩ := Nat.exists_eq_succ_of_ne_zero hj0
      simp only [findFree, hk, if_true]
      exact ih (k + 1) ⟨j', by omega, by rw [show k + 1 + j' = k + (j' + 1) by omega]; exact hfree⟩
    · simp [findFree, hk]

theorem findFree_eq_of_least (disk : List (List Char)) (stem : List Char) :
    ∀ fuel k m, k ≤ m → m ≤ k + fuel → outName stem m ∉ disk →
    (∀ j, k ≤ j → j < m → outName stem j ∈ disk) →
    findFree disk stem fuel k = outName stem m := by
  intro fuel
  induction fuel with
  | zero =>
    intro k m hkm hmk _ _
    have : m = k := by omega
    subst this
    rfl
  | succ fuel ih =>
    intro k m hkm hmk hfree hbusy
    by_cases hk : outName stem k ∈ disk
    · have hne : k ≠ m := by rintro rfl; exact hfree hk
      simp only [findFree, hk, if_true]
      exact ih (k + 1) m (by omega) (by omega) hfree (fun j h1 h2 => hbusy j (by omega) h2)
    · have : m = k := by
        by_contra hne
        exact hk (hbusy k le_rfl (by omega))
      subst this
      simp [findFree, hk]

theorem get_unique_output_path_not_mem (disk : List (List Char)) (stem : List Char) :
    get_unique_output_path disk stem ∉ disk := by
  obtain ⟨j, hj, hfree⟩ := exists_outName_free disk stem
  exact findFree_not_mem disk stem (disk.length + 1) 0
    ⟨j, by omega, by simpa using hfree⟩

/-- C7: for every stem and every output-directory contents, the Output Namer
returns `stem.webp` when that name is free, and otherwise `stem_k.webp` for
the least positive `k` whose name is free; the returned name never exists on
disk at the moment it is returned. -/
theorem C7_output_namer (disk : List (List Char)) (stem : List Char) :
    get_unique_output_path disk stem ∉ disk
    ∧ (outName stem 0 ∉ disk → get_unique_output_path disk stem = outName stem 0)
    ∧ (outName stem 0 ∈ disk → ∃ k, 0 < k ∧ get_unique_output_path disk stem = outName stem k
        ∧ outName stem k ∉ disk ∧ ∀ j, 0 < j → j < k → outName stem j ∈ disk) := by
  refine ⟨get_unique_output_path_not_mem disk stem, ?_, ?_⟩
  · intro h0
    exact findFree_eq_of_least disk stem (disk.length + 1) 0 0 le_rfl (by omega) h0
      (fun j _ hj => absurd hj (by omega))
  · intro h0
    have hex : ∃ k, outName stem k ∉ disk :=
      (exists_outName_free disk stem).imp (fun j h => h.2)
    have hm_free : outName stem (Nat.find hex) ∉ disk := Nat.find_spec hex
    have hm_pos : 0 < Nat.find hex := by
      rcases Nat.eq_zero_or_pos (Nat.find hex) with h | h
      · exfalso; rw [h] at hm_free; exact hm_free h0
      · exact h
    have hbusy : ∀ j, j < Nat.find hex → outName stem j ∈ disk := by
      intro j hj
      exact not_not.mp (Nat.find_min hex hj)
    have hbound : Nat.find hex ≤ disk.length := by
      obtain ⟨j, hj, hfree⟩ := exists_outName_free disk stem
      exact le_trans (Nat.find_min' hex hfree) hj
    refine ⟨Nat.find hex, hm_pos, ?_, hm_free, fun j _ hj => hbusy j hj⟩
    exact findFree_eq_of_least disk stem (disk.length + 1) 0 (Nat.find hex)
      (by omega) (by omega) hm_free (fun j _ hj => hbusy j hj)

/-- Witness for C7 on concrete inputs. -/
theorem C7_output_namer_witness :
    get_unique_output_path [String.toList "a.webp"] (String.toList "a") ∉ [String.toList "a.webp"]
    ∧ get_unique_output_path [] (String.toList "a") = outName (String.toList "a") 0 :=
  ⟨(C7_output_namer [String.toList "a.webp"] (String.toList "a")).1,
   (C7_output_namer [] (String.toList "a")).2.1 (by decide)⟩

/-! ### Helper lemmas: discovery -/

theorem foldl_glob_mem (files : List (List Char)) :
    ∀ (fmts : List (List Char)) (acc : List (List Char)) (x : List Char),
    x ∈ fmts.foldl (fun acc fmt => acc ++ globFmt files fmt) acc ↔
      x ∈ acc ∨ ∃ fmt ∈ fmts, x ∈ globFmt files fmt := by
  intro fmts
  induction fmts with
  | nil => simp
  | cons f fs ih =>
    intro acc x
    simp only [List.foldl_cons]
    rw [ih]
    simp only [List.mem_append, List.mem_cons]
    constructor
    · rintro ((h | h) | ⟨fmt, hf, hx⟩)
      · exact Or.inl h
      · exact Or.inr ⟨f, Or.inl rfl, h⟩
      · exact Or.inr ⟨fmt, Or.inr hf, hx⟩
    · rintro (h | ⟨fmt, (rfl | hf), hx⟩)
      · exact Or.inl (Or.inl h)
      · exact Or.inl (Or.inr hx)
      · exact Or.inr ⟨fmt, hf, hx⟩

/-- C5: Discovery selects exactly the files directly inside the root directory
whose names end, by literal case-sensitive suffix comparison, with one of the
eight listed extensions; `a.jpeg` and `a.JPEG` match, `a.Jpeg` does not. -/
theorem C5_discovery :
    (∀ (files : List (List Char)) (x : List Char),
        x ∈ discover files ↔ x ∈ files ∧ matchesFormat x = true)
    ∧ matchesFormat (String.toList "a.jpeg") = true
    ∧ matchesFormat (String.toList "a.JPEG") = true
    ∧ matchesFormat (String.toList "a.Jpeg") = false := by
  refine ⟨?_, by decide, by decide, by decide⟩
  intro files x
  rw [discover, foldl_glob_mem]
  simp only [List.not_mem_nil, false_or, globFmt, List.mem_filter, matchesFormat,
    List.any_eq_true]
  constructor
  · rintro ⟨fmt, hf, hx, hs⟩
    exact ⟨hx, fmt, hf, hs⟩
  · rintro ⟨hx, fmt, hf, hs⟩
    exact ⟨fmt, hf, hx, hs⟩

/-- Witness for C5: a concrete matching file is discovered. -/
theorem C5_discovery_witness :
    String.toList "a.png" ∈ discover [String.toList "a.png"] :=
  (C5_discovery.1 [String.toList "a.png"] (String.toList "a.png")).mpr ⟨by decide, by decide⟩

/-! ### Helper lemmas: the probe trace -/

theorem probeCount_append (l1 l2 : List Event) :
    probeCount (l1 ++ l2) = probeCount l1 + probeCount l2 :=
  List.countP_append _ _ _

theorem probeCount_copy (env : Env) (src dst : List Char) :
    probeCount (copy_metadata_run env src dst).1 = 0 := by
  unfold copy_metadata_run
  split_ifs <;> rfl

theorem copy_no_probe (env : Env) (src dst : List Char) :
    ∀ a ∈ (copy_metadata_run env src dst).1,
      (match a with | Event.probe _ => true | _ => false) = false := by
  unfold copy_metadata_run
  split_ifs <;> intro a ha <;> fin_cases ha <;> rfl

theorem runJob_assignedPath (env : Env) (h : Bool) (disk : List (List Char)) (img : List Char) :
    (runJob env h disk img).assignedPath = get_unique_output_path disk (pathStem img) := by
  simp only [runJob, finishJob, convert_heic_to_jpeg]
  split_ifs <;> rfl

theorem runJob_probeCount (env : Env) (h : Bool) (disk : List (List Char)) (img : List Char) :
    probeCount (runJob env h disk img).events = if heicDecoded env img then 1 else 0 := by
  simp only [runJob, finishJob, convert_heic_to_jpeg, heicDecoded]
  split_ifs <;>
    simp_all [probeCount_append, probeCount_copy, probeCount, List.countP_cons] <;>
    first
      | exact copy_no_probe _ _ _
      | exact ⟨copy_no_probe _ _ _, copy_no_probe _ _ _⟩

theorem runLoop_probeCount (env : Env) (h : Bool) :
    ∀ (imgs : List (List Char)) (st : RunState),
    probeCount (runLoop env h imgs st).events =
      probeCount st.events + imgs.countP (heicDecoded env) := by
  intro imgs
  induction imgs with
  | nil => intro st; simp [runLoop]
  | cons img rest ih =>
    intro st
    rw [runLoop, ih, List.countP_cons]
    simp only [processJob, probeCount_append, runJob_probeCount]
    by_cases hd : heicDecoded env img <;> simp [hd] <;> omega

/-- C3 counterexample: in a run over a single HEIC candidate whose decode
succeeds, the capability probe is invoked twice, not exactly once — line 72
of the source re-runs `check_exiftool()` inside `convert_heic_to_jpeg`. -/
theorem C3_counterexample :
    probeCount (runMain envSipsOnly [String.toList "a.heic"] []).events ≠ 1 := by
  decide

/-- C3 (amended): the probe runs once at startup and its cached value is what
the main loop consults for metadata decisions, but the two-step decode helper
re-invokes the probe once per successfully decoded proprietary candidate: a
run performs exactly `1 + (number of successful HEIC decodes)` probe
invocations. -/
theorem C3_amended_probe_count (env : Env) (files disk0 : List (List Char)) :
    probeCount (runMain env files disk0).events =
      1 + (discover files).countP (heicDecoded env) := by
  rw [runMain, runLoop_probeCount]
  simp [initState, probeCount]

theorem copyCount_append (l1 l2 : List Event) :
    copyCount (l1 ++ l2) = copyCount l1 + copyCount l2 :=
  List.countP_append _ _ _

theorem runJob_no_copy (env : Env) (disk : List (List Char)) (img : List Char)
    (hx : env.exiftoolAvailable = false) :
    copyCount (runJob env false disk img).events = 0
    ∧ (runJob env false disk img).metaOk = false := by
  simp only [runJob, finishJob, convert_heic_to_jpeg, hx]
  split_ifs <;> simp_all [copyCount, List.countP_cons]

theorem runLoop_no_copy (env : Env) (hx : env.exiftoolAvailable = false) :
    ∀ (imgs : List (List Char)) (st : RunState),
    copyCount (runLoop env false imgs st).events = copyCount st.events
    ∧ (runLoop env false imgs st).meta = st.meta := by
  intro imgs
  induction imgs with
  | nil => intro st; simp [runLoop]
  | cons img rest ih =>
    intro st
    rw [runLoop]
    obtain ⟨h1, h2⟩ := ih (processJob env false st img)
    obtain ⟨j1, j2⟩ := runJob_no_copy env st.disk img hx
    refine ⟨?_, ?_⟩
    · rw [h1]; simp [processJob, copyCount_append, j1]
    · rw [h2]; simp [processJob, j2]

/-- C4: if the startup probe reports exiftool unavailable, metadata
propagation is skipped entirely (no metadata-copy invocation appears in the
trace) and the metadata-preserved counter is exactly 0, whatever the
candidates and however many conversions succeed. -/
theorem C4_no_exiftool (env : Env) (files disk0 : List (List Char))
    (hx : env.exiftoolAvailable = false) :
    (runMain env files disk0).meta = 0
    ∧ copyCount (runMain env files disk0).events = 0 := by
  rw [runMain, hx]
  obtain ⟨h1, h2⟩ := runLoop_no_copy env hx (discover files) (initState env disk0)
  exact ⟨by rw [h2]; rfl, by rw [h1]; rfl⟩

/-- Witness for C4 at a concrete degraded-mode run. -/
theorem C4_no_exiftool_witness :
    (runMain envSipsOnly [String.toList "z.jpg"] []).meta = 0
    ∧ copyCount (runMain envSipsOnly [String.toList "z.jpg"] []).events = 0 :=
  C4_no_exiftool envSipsOnly [String.toList "z.jpg"] [] rfl

/-- C1: a run over `y.heic` in which sips succeeds and cwebp fails leaves the
intermediate file `y_temp.jpg` in the output directory after the job (and the
whole run) completes, with no conversion counted — the `temp_jpg.unlink()` of
line 134 sits after the cwebp call and is skipped when `check=True` raises. -/
theorem C1_intermediate_left_on_disk :
    String.toList "y_temp.jpg" ∈ (runMain envSipsOnly [String.toList "y.heic"] []).disk
    ∧ (runMain envSipsOnly [String.toList "y.heic"] []).succ = 0 := by
  decide

/-- C2 counterexample: with candidates `photo.jpg` and `photo.png` and every
cwebp invocation failing, the first job creates no file at `photo.webp`, so
the second job is assigned the very same output path. -/
theorem C2_counterexample :
    ¬ (((runMain envSipsOnly
          [String.toList "photo.jpg", String.toList "photo.png"] []).assigned.map
            Prod.fst).Nodup) := by
  decide

theorem mem_addFile_of_mem {q : List Char} (d : List (List Char)) (p : List Char)
    (h : q ∈ d) : q ∈ addFile d p := by
  unfold addFile
  split_ifs
  · exact h
  · exact List.mem_cons_of_mem _ h

theorem mem_addFile_self (d : List (List Char)) (p : List Char) : p ∈ addFile d p := by
  unfold addFile
  split_ifs with h
  · exact h
  · exact List.mem_cons_self _ _

theorem outName_getLast (stem : List Char) (k : Nat) :
    (outName stem k).getLast? = some 'p' := by
  cases k with
  | zero => rw [outName_zero, List.getLast?_append_of_ne_nil _ (by decide)]; rfl
  | succ k => rw [outName_succ, List.getLast?_append_of_ne_nil _ (by decide)]; rfl

theorem tempName_getLast (img : List Char) : (tempName img).getLast? = some 'g' := by
  unfold tempName
  rw [List.getLast?_append_of_ne_nil _ (by decide)]
  rfl

theorem webp_ne_temp (p : List Char) (hp : p.getLast? = some 'p') (img : List Char) :
    p ≠ tempName img := by
  intro h
  rw [h, tempName_getLast] at hp
  exact absurd hp (by decide)

theorem findFree_is_outName (disk : List (List Char)) (stem : List Char) :
    ∀ fuel k, ∃ j, findFree disk stem fuel k = outName stem j := by
  intro fuel
  induction fuel with
  | zero => intro k; exact ⟨k, rfl⟩
  | succ fuel ih =>
    intro k
    simp only [findFree]
    split_ifs
    · exact ih (k + 1)
    · exact ⟨k, rfl⟩

theorem get_unique_getLast (disk : List (List Char)) (stem : List Char) :
    (get_unique_output_path disk stem).getLast? = some 'p' := by
  obtain ⟨j, hj⟩ := findFree_is_outName disk stem (disk.length + 1) 0
  rw [get_unique_output_path, hj, outName_getLast]

theorem runJob_disk_preserved (env : Env) (h : Bool) (disk : List (List Char))
    (img : List Char) (q : List Char) (hq : q ∈ disk) (hql : q.getLast? = some 'p') :
    q ∈ (runJob env h disk img).disk := by
  simp only [runJob, finishJob, convert_heic_to_jpeg]
  split_ifs <;>
    first
      | exact hq
      | exact mem_addFile_of_mem _ _ hq
      | (rw [List.mem_erase_of_ne (webp_ne_temp q hql img)]
         exact mem_addFile_of_mem _ _ (mem_addFile_of_mem _ _ hq))

theorem runJob_mem_or (env : Env) (h : Bool) (disk : List (List Char)) (img : List Char) :
    (runJob env h disk img).convOk = false
    ∨ (runJob env h disk img).assignedPath ∈ (runJob env h disk img).disk := by
  simp only [runJob, finishJob, convert_heic_to_jpeg]
  split_ifs <;>
    first
      | exact Or.inl rfl
      | exact Or.inr (mem_addFile_self _ _)
      | (refine Or.inr ?_
         rw [List.mem_erase_of_ne
              (webp_ne_temp _ (get_unique_getLast disk (pathStem img)) img)]
         exact mem_addFile_self _ _)

theorem successPaths_append (a b : List (List Char × Bool)) :
    successPaths (a ++ b) = successPaths a ++ successPaths b := by
  simp [successPaths, List.filter_append]

theorem successPaths_single_true (p : List Char) : successPaths [(p, true)] = [p] := rfl

theorem successPaths_single_false (p : List Char) : successPaths [(p, false)] = [] := rfl


theorem processJob_invC2 (env : Env) (h : Bool) (st : RunState) (img : List Char)
    (hi : InvC2 st) : InvC2 (processJob env h st img) := by
  obtain ⟨h1, h2, h3⟩ := hi
  have hpath := runJob_assignedPath env h st.disk img
  have hfree := get_unique_output_path_not_mem st.disk (pathStem img)
  unfold InvC2 processJob
  cases hc : (runJob env h st.disk img).convOk with
  | false =>
    simp only [hc, successPaths_append, successPaths_single_false, List.append_nil]
    exact ⟨fun p hp => runJob_disk_preserved env h st.disk img p (h1 p hp) (h3 p hp),
      h2, h3⟩
  | true =>
    simp only [hc, successPaths_append, successPaths_single_true]
    refine ⟨?_, ?_, ?_⟩
    · intro p hp
      rcases List.mem_append.mp hp with hl | hr
      · exact runJob_disk_preserved env h st.disk img p (h1 p hl) (h3 p hl)
      · have hpe : p = (runJob env h st.disk img).assignedPath := by simpa using hr
        rcases runJob_mem_or env h st.disk img with hf | hm
        · rw [hc] at hf; exact absurd hf (by decide)
        · rw [hpe]; exact hm
    · rw [List.nodup_append]
      refine ⟨h2, List.nodup_singleton _, ?_⟩
      intro p hp hq
      have hpe : p = (runJob env h st.disk img).assignedPath := by simpa using hq
      rw [hpe, hpath] at hp
      exact hfree (h1 _ hp)
    · intro p hp
      rcases List.mem_append.mp hp with hl | hr
      · exact h3 p hl
      · have hpe : p = (runJob env h st.disk img).assignedPath := by simpa using hr
        rw [hpe, hpath]
        exact get_unique_getLast st.disk (pathStem img)

theorem runLoop_invC2 (env : Env) (h : Bool) :
    ∀ (imgs : List (List Char)) (st : RunState), InvC2 st → InvC2 (runLoop env h imgs st) := by
  intro imgs
  induction imgs with
  | nil => intro st hi; exact hi
  | cons img rest ih =>
    intro st hi
    exact ih (processJob env h st img) (processJob_invC2 env h st img hi)

/-- C2 (amended): the Output Namer never assigns the same output path to two
jobs whose conversions both succeed (each such job creates its file at the
reserved path, so later reservations avoid it); uniqueness over all jobs can
fail only because a failed job creates no file at its reserved path, which a
later job with the same stem may then be assigned again. -/
theorem C2_amended_success_paths_nodup (env : Env) (files disk0 : List (List Char)) :
    (successPaths (runMain env files disk0).assigned).Nodup := by
  have hinit : InvC2 (initState env disk0) := by
    refine ⟨?_, ?_, ?_⟩ <;> simp [InvC2, initState, successPaths]
  exact (runLoop_invC2 env env.exiftoolAvailable (discover files)
    (initState env disk0) hinit).2.1


theorem copy_no_sips (env : Env) (src dst : List Char) :
    ∀ s d, Event.sips s d ∉ (copy_metadata_run env src dst).1 := by
  unfold copy_metadata_run
  split_ifs <;> intro s d hm <;> simp at hm

/-- C6: routing is decided by a case-insensitive match on the one proprietary
extension. A candidate whose extension lowercases to `.heic` takes the
two-step path (the trace opens with the sips decode, and on decode success
contains the cwebp call on the intermediate file); if the decode fails the
job ends as a conversion failure with no cwebp invocation at all. Every other
candidate is compressed by cwebp directly from its source path, with no sips
invocation. -/
theorem C6_routing (env : Env) (h : Bool) (disk : List (List Char)) (img : List Char) :
    (lowerStr (pathSuffix img) = String.toList ".heic" → env.sipsOk img = false →
      (runJob env h disk img).events = [Event.sips img (tempName img)]
      ∧ (runJob env h disk img).convOk = false)
    ∧ (lowerStr (pathSuffix img) = String.toList ".heic" → env.sipsOk img = true →
      (runJob env h disk img).events.head? = some (Event.sips img (tempName img))
      ∧ Event.cwebp (tempName img) (get_unique_output_path disk (pathStem img))
          ∈ (runJob env h disk img).events)
    ∧ (lowerStr (pathSuffix img) ≠ String.toList ".heic" →
      (runJob env h disk img).events.head? =
        some (Event.cwebp img (get_unique_output_path disk (pathStem img)))
      ∧ ∀ s d, Event.sips s d ∉ (runJob env h disk img).events) := by
  refine ⟨?_, ?_, ?_⟩
  · intro hs hsips
    simp [runJob, convert_heic_to_jpeg, hs, hsips]
  · intro hs hsips
    simp only [runJob, finishJob, convert_heic_to_jpeg, hs, hsips, if_true, if_pos rfl]
    split_ifs <;> simp
  · intro hs
    constructor
    · simp only [runJob, finishJob, if_neg hs]
      split_ifs <;> rfl
    · intro s d
      simp only [runJob, finishJob, if_neg hs]
      split_ifs <;> intro hm <;> simp at hm <;>
        exact copy_no_sips env img (get_unique_output_path disk (pathStem img)) s d hm

/-- Witness for C6: concrete instances of all three routing cases. -/
theorem C6_routing_witness :
    ((runJob envSipsOnly false [] (String.toList "a.jpg")).events.head? =
        some (Event.cwebp (String.toList "a.jpg")
          (get_unique_output_path [] (pathStem (String.toList "a.jpg")))))
    ∧ (runJob envAllOk true [] (String.toList "b.HEIC")).events.head? =
        some (Event.sips (String.toList "b.HEIC") (tempName (String.toList "b.HEIC"))) :=
  ⟨((C6_routing envSipsOnly false [] (String.toList "a.jpg")).2.2 (by decide)).1,
   ((C6_routing envAllOk true [] (String.toList "b.HEIC")).2.1 (by decide) (by decide)).1⟩


theorem runJob_metaOk_imp_convOk (env : Env) (h : Bool) (disk : List (List Char))
    (img : List Char) :
    (runJob env h disk img).metaOk = true → (runJob env h disk img).convOk = true := by
  simp only [runJob, finishJob, convert_heic_to_jpeg]
  split_ifs <;> simp

theorem runLoop_assigned_length (env : Env) (h : Bool) :
    ∀ (imgs : List (List Char)) (st : RunState),
    (runLoop env h imgs st).assigned.length = st.assigned.length + imgs.length := by
  intro imgs
  induction imgs with
  | nil => intro st; simp [runLoop]
  | cons img rest ih =>
    intro st
    rw [runLoop, ih]
    simp [processJob]
    omega

/-- C8: processing failures are isolated per job: every discovered candidate
is processed (the run records one job per candidate, whatever fails), and a
job whose conversion failed increments neither counter. -/
theorem C8_failure_isolated :
    (∀ (env : Env) (files disk0 : List (List Char)),
      (runMain env files disk0).assigned.length = (discover files).length)
    ∧ (∀ (env : Env) (h : Bool) (st : RunState) (img : List Char),
      (runJob env h st.disk img).convOk = false →
      (processJob env h st img).succ = st.succ ∧ (processJob env h st img).meta = st.meta) := by
  constructor
  · intro env files disk0
    rw [runMain, runLoop_assigned_length]
    simp [initState]
  · intro env h st img hc
    have hm : (runJob env h st.disk img).metaOk = false := by
      cases hmeta : (runJob env h st.disk img).metaOk
      · rfl
      · have := runJob_metaOk_imp_convOk env h st.disk img hmeta
        rw [hc] at this
        exact absurd this (by decide)
    simp [processJob, hc, hm]

/-- Witness for C8: a failed job leaves both counters unchanged. -/
theorem C8_failure_isolated_witness :
    (processJob envSipsOnly false (initState envSipsOnly []) (String.toList "a.jpg")).succ
      = (initState envSipsOnly []).succ
    ∧ (processJob envSipsOnly false (initState envSipsOnly []) (String.toList "a.jpg")).meta
      = (initState envSipsOnly []).meta :=
  C8_failure_isolated.2 envSipsOnly false (initState envSipsOnly [])
    (String.toList "a.jpg") (by decide)

theorem runJob_metaOk_eq (env : Env) (disk : List (List Char)) (img : List Char) :
    (runJob env true disk img).convOk = true →
    (runJob env true disk img).metaOk =
      (env.copyAllOk img (get_unique_output_path disk (pathStem img))
        && env.copyDatesOk img (get_unique_output_path disk (pathStem img))) := by
  simp only [runJob, finishJob, convert_heic_to_jpeg]
  split_ifs <;> intro hc <;>
    first
      | exact absurd hc (by decide)
      | (unfold copy_metadata_run; split_ifs <;> simp_all)

/-- C9: for a job whose conversion step succeeds, failure of either
metadata-copy pass leaves the conversion result intact: the
successful-conversion counter is still incremented and only the
metadata-preserved counter is withheld. -/
theorem C9_metadata_failure_isolated (env : Env) (st : RunState) (img : List Char)
    (hc : (runJob env true st.disk img).convOk = true)
    (hf : env.copyAllOk img (get_unique_output_path st.disk (pathStem img)) = false
        ∨ env.copyDatesOk img (get_unique_output_path st.disk (pathStem img)) = false) :
    (processJob env true st img).succ = st.succ + 1
    ∧ (processJob env true st img).meta = st.meta := by
  have hm : (runJob env true st.disk img).metaOk = false := by
    rw [runJob_metaOk_eq env st.disk img hc]
    rcases hf with hf | hf <;> simp [hf]
  simp [processJob, hc, hm]

/-- Witness for C9 at a concrete run whose all-tags pass fails. -/
theorem C9_metadata_failure_isolated_witness :
    (processJob envCopyFail true (initState envCopyFail []) (String.toList "a.jpg")).succ
      = (initState envCopyFail []).succ + 1
    ∧ (processJob envCopyFail true (initState envCopyFail []) (String.toList "a.jpg")).meta
      = (initState envCopyFail []).meta :=
  C9_metadata_failure_isolated envCopyFail (initState envCopyFail [])
    (String.toList "a.jpg") (by decide) (Or.inl (by decide))

theorem runLoop_counters (env : Env) (h : Bool) :
    ∀ (imgs : List (List Char)) (st : RunState),
    st.meta ≤ st.succ → st.succ ≤ st.assigned.length →
    (runLoop env h imgs st).meta ≤ (runLoop env h imgs st).succ
    ∧ (runLoop env h imgs st).succ ≤ (runLoop env h imgs st).assigned.length := by
  intro imgs
  induction imgs with
  | nil => intro st h1 h2; exact ⟨h1, h2⟩
  | cons img rest ih =>
    intro st h1 h2
    rw [runLoop]
    apply ih
    · cases hm : (runJob env h st.disk img).metaOk
      · simp [processJob, hm]
        split_ifs <;> omega
      · have hc := runJob_metaOk_imp_convOk env h st.disk img hm
        simp [processJob, hm, hc]
        omega
    · simp [processJob]
      split_ifs <;> omega

/-- C10: at every point of the run (after any number of processed candidates)
and hence in the final summary, the counters satisfy
`0 ≤ metadata_preserved ≤ successful_conversions ≤ number of discovered
candidates`. -/
theorem C10_counter_invariant (env : Env) (files disk0 : List (List Char)) (n : Nat) :
    0 ≤ (runLoop env env.exiftoolAvailable ((discover files).take n) (initState env disk0)).meta
    ∧ (runLoop env env.exiftoolAvailable ((discover files).take n) (initState env disk0)).meta
      ≤ (runLoop env env.exiftoolAvailable ((discover files).take n) (initState env disk0)).succ
    ∧ (runLoop env env.exiftoolAvailable ((discover files).take n) (initState env disk0)).succ
      ≤ (discover files).length := by
  obtain ⟨g1, g2⟩ := runLoop_counters env env.exiftoolAvailable ((discover files).take n)
    (initState env disk0) (by simp [initState]) (by simp [initState])
  refine ⟨Nat.zero_le _, g1, le_trans g2 ?_⟩
  rw [runLoop_assigned_length]
  simp [initState, List.length_take]


end ImageOptimizer
